import Mathlib

/-!
# Verification of the monomial basis engine of scikit-fda

Shallow embedding of `src/skfda/representation/basis/_monomial.py`
(class `Monomial`).  Numpy float arrays are modelled as Lean `List ℚ`
(exact arithmetic); matrices as `List (List ℚ)`.  Each definition follows
the corresponding numpy pipeline of the source.
-/

namespace Skfda

/-- The `Monomial` basis object: `domain_range = ((a, b),)` and `n_basis`.
Mirrors the attributes used by `_monomial.py` (`self.domain_range[0]`
is the pair `(a, b)`; `self.n_basis` the basis size). -/
structure Monomial where
  a : ℚ
  b : ℚ
  n_basis : ℕ
deriving DecidableEq, Repr

/-- The falling-factorial coefficient computed by
`_coefs_exps_derivatives`: `np.prod` over the rows of
`np.linspace(seq, seq - derivative + 1, derivative)`, i.e.
`k·(k-1)·…·(k-d+1)` (empty product = 1 when `d = 0`). -/
def fallingCoef (k d : ℕ) : ℤ :=
  ∏ i in Finset.range d, ((k : ℤ) - (i : ℤ))

/-- The coefficient vector `coefs` of `_coefs_exps_derivatives`. -/
def Monomial.coefs (bs : Monomial) (derivative : ℕ) : List ℤ :=
  (List.range bs.n_basis).map (fun k => fallingCoef k derivative)

/-- The exponent vector `exps = np.maximum(seq - derivative, 0)` of
`_coefs_exps_derivatives` (truncated subtraction is exactly the clamp). -/
def Monomial.exps (bs : Monomial) (derivative : ℕ) : List ℕ :=
  (List.range bs.n_basis).map (fun k => k - derivative)

/-- `Monomial._evaluate`: `raised = np.power.outer(eval_points, exps)`
followed by `(coefs * raised).T`, so row `k`, column `p` of the result is
`coefs[k] * eval_points[p] ^ exps[k]`.  We build the transposed product
row by row. -/
def Monomial.evaluate (bs : Monomial) (eval_points : List ℚ) (derivative : ℕ) :
    List (List ℚ) :=
  let coefs := bs.coefs derivative
  let exps := bs.exps derivative
  (List.range bs.n_basis).map (fun k =>
    eval_points.map (fun t => ((coefs.getD k 0 : ℤ) : ℚ) * t ^ exps.getD k 0))

/-- One row of the derivative coefficient transformation:
`np.polyder(x[::-1], order)[::-1]`.  For a row `x` of increasing-degree
coefficients, entry `j` of the result is
`x[j + order] * (j+order)·(j+order-1)·…·(j+1)`, for
`j = 0 … x.length - order - 1`. -/
def polyderRow (x : List ℚ) (order : ℕ) : List ℚ :=
  (List.range (x.length - order)).map (fun j =>
    ((fallingCoef (j + order) order : ℤ) : ℚ) * x.getD (j + order) 0)

/-- `Monomial._derivative`: returns
`(Monomial(self.domain_range, self.n_basis - order), rows mapped by polyder)`. -/
def Monomial.derivative (bs : Monomial) (coefs : List (List ℚ)) (order : ℕ) :
    Monomial × List (List ℚ) :=
  (⟨bs.a, bs.b, bs.n_basis - order⟩, coefs.map (fun x => polyderRow x order))

/-- `np.polyint(np.ones L)`: the antiderivative coefficients of the
all-ones decreasing-degree polynomial of length `L`: entry `i` is
`1 / (L - i)` for `i < L`, followed by the integration constant `0`. -/
def polyintOnes (L : ℕ) : List ℚ :=
  ((List.range L).map (fun (i : ℕ) => 1 / ((L : ℚ) - (i : ℚ)))) ++ [0]

/-- One row of `np.vander(points, N)`: decreasing powers
`t^(N-1), …, t^1, t^0`. -/
def vanderRow (t : ℚ) (N : ℕ) : List ℚ :=
  (List.range N).map (fun i => t ^ (N - 1 - i))

/-- `scipy.linalg.hankel(c, r)`: the matrix with first column `c` and last
row `r`; entry `[i, j] = c[i+j]` if `i+j < len(c)`, else
`r[i + j - len(c) + 1]`. -/
def hankel (c r : List ℚ) : List (List ℚ) :=
  (List.range c.length).map (fun i =>
    (List.range r.length).map (fun j =>
      if i + j < c.length then c.getD (i + j) 0
      else r.getD (i + j - c.length + 1) 0))

/-- `power_domain_limits[1] - power_domain_limits[0]` of `_gram_matrix`:
the difference of the `np.vander` rows of the two domain endpoints
(Barrow's rule). -/
def Monomial.power_domain_limits_diff (bs : Monomial) : List ℚ :=
  List.zipWith (· - ·) (vanderRow bs.b (2 * bs.n_basis))
    (vanderRow bs.a (2 * bs.n_basis))

/-- `evaluated_points = integral_coefs * power_domain_limits_diff` of
`_gram_matrix`, with `integral_coefs = np.polyint(np.ones(2 n - 1))`. -/
def Monomial.evaluated_points (bs : Monomial) : List ℚ :=
  List.zipWith (· * ·) (polyintOnes (2 * bs.n_basis - 1))
    bs.power_domain_limits_diff

/-- `ordered_evaluated_points = evaluated_points[-2::-1]` of
`_gram_matrix`: drop the last entry, reverse. -/
def Monomial.ordered_evaluated_points (bs : Monomial) : List ℚ :=
  (bs.evaluated_points.take (2 * bs.n_basis - 1)).reverse

/-- `Monomial._gram_matrix`: the Hankel matrix built from the first
`n_basis` and the last `n_basis` ordered evaluated points. -/
def Monomial.gram_matrix (bs : Monomial) : List (List ℚ) :=
  hankel (bs.ordered_evaluated_points.take bs.n_basis)
    (bs.ordered_evaluated_points.drop (bs.n_basis - 1))

/-- Entry `[i, j]` of the Gram matrix (list-of-lists accessor). -/
def Monomial.gramEntry (bs : Monomial) (i j : ℕ) : ℚ :=
  ((bs.gram_matrix).getD i []).getD j 0

/-- Error kinds raised by basis operations.  `valueError` is Python's
`ValueError` (the kind actually raised in `basis_of_product`);
`incompatibleDomainError` is the error kind named by the spec (§7, §8),
included so the claim comparing the two names can be stated. -/
inductive BasisError
  | valueError (msg : String)
  | incompatibleDomainError (msg : String)
deriving DecidableEq, Repr

/-- Modelled from the spec: `_same_domain` (imported from `..._utils`, not
part of the provided sources).  Spec §4.1: two bases are on the same
domain iff their domain ranges are element-wise equal (within tolerance;
exact equality in this exact-arithmetic model). -/
def same_domain (b1 b2 : Monomial) : Prop :=
  b1.a = b2.a ∧ b1.b = b2.b

instance (b1 b2 : Monomial) : Decidable (same_domain b1 b2) :=
  instDecidableAnd

/-- `Monomial.basis_of_product`: raise `ValueError("Ranges are not equal.")`
when the domains differ, otherwise (the other operand being a `Monomial`)
return `Monomial(self.domain_range, self.n_basis + other.n_basis)`. -/
def Monomial.basis_of_product (bs other : Monomial) :
    Except BasisError Monomial :=
  if ¬ same_domain bs other then
    .error (.valueError "Ranges are not equal.")
  else
    .ok ⟨bs.a, bs.b, bs.n_basis + other.n_basis⟩

/-- Combination of one coefficient row with the evaluation matrix at a
single point `t`: `∑ k, row[k] * evaluate([t], derivative)[k][0]` — the
value at `t` of the function represented by `row` against the basis,
differentiated `derivative` times. -/
def Monomial.combineAt (bs : Monomial) (row : List ℚ) (derivative : ℕ)
    (t : ℚ) : ℚ :=
  ∑ k in Finset.range bs.n_basis,
    row.getD k 0 * (((bs.evaluate [t] derivative).getD k []).getD 0 0)

/-! ## Helper lemmas -/

lemma getD_map_range {α : Type} (f : ℕ → α) {n i : ℕ} (h : i < n) (d : α) :
    ((List.range n).map f).getD i d = f i := by
  rw [List.getD_eq_getElem _ _ (by simpa using h)]
  simp

lemma fallingCoef_eq_zero {k d : ℕ} (h : k < d) : fallingCoef k d = 0 :=
  Finset.prod_eq_zero (Finset.mem_range.mpr h) (by simp)

lemma Monomial.evaluate_entry (bs : Monomial) (pts : List ℚ) (d k p : ℕ)
    (hk : k < bs.n_basis) (hp : p < pts.length) :
    ((bs.evaluate pts d).getD k []).getD p 0
      = (fallingCoef k d : ℚ) * (pts.getD p 0) ^ (k - d) := by
  simp only [Monomial.evaluate, Monomial.coefs, Monomial.exps]
  rw [getD_map_range _ hk]
  rw [List.getD_eq_getElem _ _ (by simpa using hp), List.getElem_map]
  rw [List.getD_eq_getElem _ _ hp]
  simp only [getD_map_range _ hk]

lemma getD_zipWith {f : ℚ → ℚ → ℚ} {l1 l2 : List ℚ} {i : ℕ}
    (h1 : i < l1.length) (h2 : i < l2.length) (d : ℚ) :
    (List.zipWith f l1 l2).getD i d = f (l1.getD i d) (l2.getD i d) := by
  rw [List.getD_eq_getElem _ _ (by rw [List.length_zipWith]; exact lt_inf_iff.mpr ⟨h1, h2⟩),
    List.getElem_zipWith, List.getD_eq_getElem _ _ h1, List.getD_eq_getElem _ _ h2]

lemma getD_reverse {l : List ℚ} {i : ℕ} (h : i < l.length) (d : ℚ) :
    l.reverse.getD i d = l.getD (l.length - 1 - i) d := by
  rw [List.getD_eq_getElem _ _ (by simpa using h), List.getElem_reverse,
    List.getD_eq_getElem _ _ (by omega)]

lemma getD_take {l : List ℚ} {n i : ℕ} (h : i < n) (h2 : i < l.length) (d : ℚ) :
    (l.take n).getD i d = l.getD i d := by
  rw [List.getD_eq_getElem _ _ (by rw [List.length_take]; exact lt_inf_iff.mpr ⟨h, h2⟩),
    List.getElem_take, List.getD_eq_getElem _ _ h2]

lemma getD_drop {l : List ℚ} {n i : ℕ} (h : n + i < l.length) (d : ℚ) :
    (l.drop n).getD i d = l.getD (n + i) d := by
  rw [List.getD_eq_getElem _ _ (by rw [List.length_drop]; omega),
    List.getElem_drop, List.getD_eq_getElem _ _ h]

lemma polyintOnes_length (L : ℕ) : (polyintOnes L).length = L + 1 := by
  rw [polyintOnes, List.length_append, List.length_map, List.length_range]
  rfl

lemma vanderRow_length (t : ℚ) (N : ℕ) : (vanderRow t N).length = N := by
  simp [vanderRow]

lemma polyintOnes_getD (L : ℕ) {i : ℕ} (h : i < L) :
    (polyintOnes L).getD i 0 = 1 / ((L : ℚ) - (i : ℚ)) := by
  rw [polyintOnes, List.getD_eq_getElem _ _
      (by rw [List.length_append, List.length_map, List.length_range]; omega),
    List.getElem_append_left (by simpa using h)]
  simp

lemma vanderRow_getD (t : ℚ) (N : ℕ) {i : ℕ} (h : i < N) :
    (vanderRow t N).getD i 0 = t ^ (N - 1 - i) := by
  rw [vanderRow, getD_map_range _ h]

lemma power_domain_limits_diff_length (bs : Monomial) :
    bs.power_domain_limits_diff.length = 2 * bs.n_basis := by
  simp [Monomial.power_domain_limits_diff, vanderRow_length]

lemma evaluated_points_length (bs : Monomial) :
    bs.evaluated_points.length = 2 * bs.n_basis := by
  rw [Monomial.evaluated_points, List.length_zipWith, polyintOnes_length,
    power_domain_limits_diff_length]
  rw [inf_eq_min]
  omega

lemma power_domain_limits_diff_getD (bs : Monomial) {i : ℕ}
    (h : i < 2 * bs.n_basis) :
    bs.power_domain_limits_diff.getD i 0
      = bs.b ^ (2 * bs.n_basis - 1 - i) - bs.a ^ (2 * bs.n_basis - 1 - i) := by
  rw [Monomial.power_domain_limits_diff,
    getD_zipWith (by simpa [vanderRow_length] using h)
      (by simpa [vanderRow_length] using h),
    vanderRow_getD _ _ h, vanderRow_getD _ _ h]

lemma evaluated_points_getD (bs : Monomial) {i : ℕ}
    (h : i < 2 * bs.n_basis - 1) :
    bs.evaluated_points.getD i 0
      = 1 / (((2 * bs.n_basis - 1 : ℕ) : ℚ) - (i : ℚ))
        * (bs.b ^ (2 * bs.n_basis - 1 - i) - bs.a ^ (2 * bs.n_basis - 1 - i)) := by
  rw [Monomial.evaluated_points,
    getD_zipWith (by rw [polyintOnes_length]; omega)
      (by rw [power_domain_limits_diff_length]; omega),
    polyintOnes_getD _ h, power_domain_limits_diff_getD bs (by omega)]

lemma ordered_evaluated_points_getD (bs : Monomial) {m : ℕ}
    (hm : m < 2 * bs.n_basis - 1) :
    bs.ordered_evaluated_points.getD m 0
      = 1 / (((m + 1 : ℕ) : ℚ)) * (bs.b ^ (m + 1) - bs.a ^ (m + 1)) := by
  have hlen : (bs.evaluated_points.take (2 * bs.n_basis - 1)).length
      = 2 * bs.n_basis - 1 := by
    rw [List.length_take, evaluated_points_length, inf_eq_min]
    omega
  rw [Monomial.ordered_evaluated_points,
    getD_reverse (by rw [hlen]; exact hm), hlen,
    getD_take (by omega) (by rw [evaluated_points_length]; omega),
    evaluated_points_getD bs (by omega)]
  have e1 : 2 * bs.n_basis - 1 - (2 * bs.n_basis - 1 - 1 - m) = m + 1 := by omega
  rw [e1]
  have e2 : ((2 * bs.n_basis - 1 : ℕ) : ℚ) - ((2 * bs.n_basis - 1 - 1 - m : ℕ) : ℚ)
      = ((m + 1 : ℕ) : ℚ) := by
    rw [← Nat.cast_sub (by omega)]
    exact Nat.cast_inj.mpr (by omega)
  rw [e2]

lemma ordered_evaluated_points_length (bs : Monomial) :
    bs.ordered_evaluated_points.length = 2 * bs.n_basis - 1 := by
  rw [Monomial.ordered_evaluated_points, List.length_reverse, List.length_take,
    evaluated_points_length, inf_eq_min]
  omega

lemma gramEntry_eq (bs : Monomial) (hn : 1 ≤ bs.n_basis) {i j : ℕ}
    (hi : i < bs.n_basis) (hj : j < bs.n_basis) :
    bs.gramEntry i j
      = 1 / (((i + j + 1 : ℕ)) : ℚ) * (bs.b ^ (i + j + 1) - bs.a ^ (i + j + 1)) := by
  have hc : (bs.ordered_evaluated_points.take bs.n_basis).length = bs.n_basis := by
    rw [List.length_take, ordered_evaluated_points_length, inf_eq_min]
    omega
  have hr : (bs.ordered_evaluated_points.drop (bs.n_basis - 1)).length
      = bs.n_basis := by
    rw [List.length_drop, ordered_evaluated_points_length]
    omega
  rw [Monomial.gramEntry, Monomial.gram_matrix, hankel,
    getD_map_range _ (by rw [hc]; exact hi),
    getD_map_range _ (by rw [hr]; exact hj), hc]
  by_cases hij : i + j < bs.n_basis
  · rw [if_pos hij,
      getD_take hij (by rw [ordered_evaluated_points_length]; omega),
      ordered_evaluated_points_getD bs (by omega)]
  · rw [if_neg hij,
      getD_drop (by rw [ordered_evaluated_points_length]; omega),
      show bs.n_basis - 1 + (i + j - bs.n_basis + 1) = i + j by omega,
      ordered_evaluated_points_getD bs (by omega)]

lemma getD_map' {α β : Type} (g : α → β) {l : List α} {i : ℕ}
    (h : i < l.length) (d : α) (d2 : β) :
    (l.map g).getD i d2 = g (l.getD i d) := by
  rw [List.getD_eq_getElem _ _ (by simpa using h), List.getElem_map,
    List.getD_eq_getElem _ _ h]

lemma fallingCoef_zero_right (k : ℕ) : fallingCoef k 0 = 1 := by
  simp [fallingCoef]

lemma polyderRow_length (x : List ℚ) (order : ℕ) :
    (polyderRow x order).length = x.length - order := by
  simp [polyderRow]

lemma polyderRow_getD (x : List ℚ) (order : ℕ) {j : ℕ}
    (hj : j < x.length - order) :
    (polyderRow x order).getD j 0
      = (fallingCoef (j + order) order : ℚ) * x.getD (j + order) 0 := by
  rw [polyderRow, getD_map_range _ hj]

lemma row_length_of_mem (bs : Monomial) (C : List (List ℚ)) {f : ℕ}
    (hC : ∀ row ∈ C, row.length = bs.n_basis) (hf : f < C.length) :
    (C.getD f []).length = bs.n_basis := by
  rw [List.getD_eq_getElem _ _ hf]
  exact hC _ (List.getElem_mem _)

/-! ## Claims about evaluation -/

/-- C2: row `k` of `evaluate(points, derivative=d)` at a point `t` equals
`c_k · t^max(k-d,0)` with `c_k = k·(k-1)·…·(k-d+1)` the falling factorial;
`c_k = 0` whenever `k < d`; and for `k ≥ d` the clamped exponent gives the
same value as the unclamped integer exponent `k - d` (stated with `zpow`),
so the clamping never alters the value. -/
theorem evaluate_rows_falling_factorial (bs : Monomial) (pts : List ℚ)
    (d k p : ℕ) (hk : k < bs.n_basis) (hp : p < pts.length) :
    ((bs.evaluate pts d).getD k []).getD p 0
        = (fallingCoef k d : ℚ) * (pts.getD p 0) ^ (k - d)
    ∧ (k < d → fallingCoef k d = 0)
    ∧ (d ≤ k → ((bs.evaluate pts d).getD k []).getD p 0
        = (fallingCoef k d : ℚ) * (pts.getD p 0) ^ ((k : ℤ) - (d : ℤ))) := by
  refine ⟨bs.evaluate_entry pts d k p hk hp, fun h => fallingCoef_eq_zero h,
    fun h => ?_⟩
  rw [bs.evaluate_entry pts d k p hk hp]
  congr 1
  rw [show ((k : ℤ) - (d : ℤ)) = ((k - d : ℕ) : ℤ) by omega]
  exact (zpow_natCast _ _).symm

/-- Witness for C2 at `Monomial((0,5), 3)`, `points = [0,1,2]`, `d = 1`,
`k = 2`, `p = 2`. -/
theorem evaluate_rows_falling_factorial_witness :
    ((2 < 3 ∧ 2 < ([0, 1, 2] : List ℚ).length) ∧
      ((((Monomial.mk 0 5 3).evaluate [0, 1, 2] 1).getD 2 []).getD 2 0
          = (fallingCoef 2 1 : ℚ) * (([0, 1, 2] : List ℚ).getD 2 0) ^ (2 - 1)
        ∧ (2 < 1 → fallingCoef 2 1 = 0)
        ∧ (1 ≤ 2 → (((Monomial.mk 0 5 3).evaluate [0, 1, 2] 1).getD 2 []).getD 2 0
            = (fallingCoef 2 1 : ℚ)
              * (([0, 1, 2] : List ℚ).getD 2 0) ^ ((2 : ℤ) - (1 : ℤ))))) :=
  ⟨⟨by norm_num, by norm_num⟩,
    evaluate_rows_falling_factorial ⟨0, 5, 3⟩ [0, 1, 2] 1 2 2
      (by norm_num) (by norm_num)⟩

/-- C8: the docstring evaluation scenario for `Monomial((0,5), n_basis=3)`
at points `[0,1,2]` for derivative orders 0, 1 and 2. -/
theorem known_evaluation_scenario :
    (Monomial.mk 0 5 3).evaluate [0, 1, 2] 0
        = [[1, 1, 1], [0, 1, 2], [0, 1, 4]]
    ∧ (Monomial.mk 0 5 3).evaluate [0, 1, 2] 1
        = [[0, 0, 0], [1, 1, 1], [0, 2, 4]]
    ∧ (Monomial.mk 0 5 3).evaluate [0, 1, 2] 2
        = [[0, 0, 0], [0, 0, 0], [2, 2, 2]] := by
  refine ⟨?_, ?_, ?_⟩ <;>
    norm_num [Monomial.evaluate, Monomial.coefs, Monomial.exps, fallingCoef,
      List.range_succ, Finset.prod_range_succ]

/-! ## Claims about the Gram matrix -/

/-- C3: entry `[i, j]` of `gram_matrix()` equals
`∫_a^b t^(i+j) dt = (b^(i+j+1) − a^(i+j+1)) / (i+j+1)`; the entry depends
only on the exponent sum `i + j` (Hankel structure); and for domain
`[0, 1]` with `n_basis = 3` the matrix is the Hilbert-like matrix. -/
theorem gram_matrix_closed_form (bs : Monomial) (hn : 1 ≤ bs.n_basis)
    (i j : ℕ) (hi : i < bs.n_basis) (hj : j < bs.n_basis) :
    bs.gramEntry i j
        = (bs.b ^ (i + j + 1) - bs.a ^ (i + j + 1)) / (((i + j + 1 : ℕ)) : ℚ)
    ∧ (∀ i2 j2, i2 < bs.n_basis → j2 < bs.n_basis → i + j = i2 + j2 →
        bs.gramEntry i j = bs.gramEntry i2 j2)
    ∧ (Monomial.mk 0 1 3).gram_matrix
        = [[1, 1/2, 1/3], [1/2, 1/3, 1/4], [1/3, 1/4, 1/5]] := by
  refine ⟨?_, ?_, ?_⟩
  · rw [gramEntry_eq bs hn hi hj]
    ring
  · intro i2 j2 hi2 hj2 he
    rw [gramEntry_eq bs hn hi hj, gramEntry_eq bs hn hi2 hj2, he]
  · norm_num [Monomial.gram_matrix, Monomial.ordered_evaluated_points,
      Monomial.evaluated_points, Monomial.power_domain_limits_diff,
      polyintOnes, vanderRow, hankel, List.range_succ]

/-- Witness for C3 at `Monomial((0,1), 3)`, `i = 1`, `j = 2`. -/
theorem gram_matrix_closed_form_witness :
    (1 ≤ 3 ∧ 1 < 3 ∧ 2 < 3) ∧
      ((Monomial.mk 0 1 3).gramEntry 1 2
          = ((Monomial.mk 0 1 3).b ^ (1 + 2 + 1) - (Monomial.mk 0 1 3).a ^ (1 + 2 + 1))
            / (((1 + 2 + 1 : ℕ)) : ℚ)
        ∧ (∀ i2 j2, i2 < 3 → j2 < 3 → 1 + 2 = i2 + j2 →
            (Monomial.mk 0 1 3).gramEntry 1 2 = (Monomial.mk 0 1 3).gramEntry i2 j2)
        ∧ (Monomial.mk 0 1 3).gram_matrix
            = [[1, 1/2, 1/3], [1/2, 1/3, 1/4], [1/3, 1/4, 1/5]]) :=
  ⟨⟨by norm_num, by norm_num, by norm_num⟩,
    gram_matrix_closed_form ⟨0, 1, 3⟩ (by norm_num) 1 2 (by norm_num) (by norm_num)⟩

/-- C7: `gram_matrix()` is symmetric, and the quadratic form `xᵀ G x` is
nonnegative for every rational vector `x` (positive semi-definiteness),
for every basis size `n ≥ 1` and valid domain `a < b`. -/
theorem gram_matrix_symmetric_psd (bs : Monomial) (hn : 1 ≤ bs.n_basis)
    (hab : bs.a < bs.b) :
    (∀ i j, i < bs.n_basis → j < bs.n_basis →
        bs.gramEntry i j = bs.gramEntry j i)
    ∧ (∀ x : ℕ → ℚ,
        0 ≤ ∑ i in Finset.range bs.n_basis, ∑ j in Finset.range bs.n_basis,
          x i * bs.gramEntry i j * x j) := by
  constructor
  · intro i j hi hj
    rw [gramEntry_eq bs hn hi hj, gramEntry_eq bs hn hj hi, Nat.add_comm j i]
  · intro x
    have hcont : ∀ (i j : ℕ), Continuous
        (fun t : ℝ => ((x i : ℝ) * t ^ i) * ((x j : ℝ) * t ^ j)) :=
      fun i j => (continuous_const.mul (continuous_pow i)).mul
        (continuous_const.mul (continuous_pow j))
    have key : ∀ i ∈ Finset.range bs.n_basis, ∀ j ∈ Finset.range bs.n_basis,
        ((x i * bs.gramEntry i j * x j : ℚ) : ℝ)
          = ∫ t in ((bs.a : ℝ))..((bs.b : ℝ)),
              ((x i : ℝ) * t ^ i) * ((x j : ℝ) * t ^ j) := by
      intro i hi j hj
      rw [gramEntry_eq bs hn (Finset.mem_range.mp hi) (Finset.mem_range.mp hj)]
      have e0 : (∫ t in ((bs.a : ℝ))..((bs.b : ℝ)),
            ((x i : ℝ) * t ^ i) * ((x j : ℝ) * t ^ j))
          = ∫ t in ((bs.a : ℝ))..((bs.b : ℝ)),
              ((x i : ℝ) * (x j : ℝ)) * t ^ (i + j) :=
        intervalIntegral.integral_congr (fun t _ => by ring)
      rw [e0, intervalIntegral.integral_const_mul, integral_pow]
      push_cast
      ring
    have step1 : ((∑ i in Finset.range bs.n_basis, ∑ j in Finset.range bs.n_basis,
        x i * bs.gramEntry i j * x j : ℚ) : ℝ)
        = ∑ i in Finset.range bs.n_basis, ∑ j in Finset.range bs.n_basis,
            ((x i * bs.gramEntry i j * x j : ℚ) : ℝ) := by
      push_cast
      rfl
    have step2 : (∑ i in Finset.range bs.n_basis, ∑ j in Finset.range bs.n_basis,
        ((x i * bs.gramEntry i j * x j : ℚ) : ℝ))
        = ∑ i in Finset.range bs.n_basis, ∑ j in Finset.range bs.n_basis,
            ∫ t in ((bs.a : ℝ))..((bs.b : ℝ)),
              ((x i : ℝ) * t ^ i) * ((x j : ℝ) * t ^ j) :=
      Finset.sum_congr rfl (fun i hi =>
        Finset.sum_congr rfl (fun j hj => key i hi j hj))
    have step3 : (∫ t in ((bs.a : ℝ))..((bs.b : ℝ)),
          (∑ i in Finset.range bs.n_basis, (x i : ℝ) * t ^ i) ^ 2)
        = ∑ i in Finset.range bs.n_basis, ∑ j in Finset.range bs.n_basis,
            ∫ t in ((bs.a : ℝ))..((bs.b : ℝ)),
              ((x i : ℝ) * t ^ i) * ((x j : ℝ) * t ^ j) := by
      have ecg : (∫ t in ((bs.a : ℝ))..((bs.b : ℝ)),
            (∑ i in Finset.range bs.n_basis, (x i : ℝ) * t ^ i) ^ 2)
          = ∫ t in ((bs.a : ℝ))..((bs.b : ℝ)),
              ∑ i in Finset.range bs.n_basis, ∑ j in Finset.range bs.n_basis,
                ((x i : ℝ) * t ^ i) * ((x j : ℝ) * t ^ j) :=
        intervalIntegral.integral_congr (fun t _ => by
          rw [sq, Finset.sum_mul_sum])
      rw [ecg, intervalIntegral.integral_finset_sum (fun i _ =>
        (continuous_finset_sum _ (fun j _ => hcont i j)).intervalIntegrable _ _)]
      exact Finset.sum_congr rfl (fun i _ =>
        intervalIntegral.integral_finset_sum
          (fun j _ => (hcont i j).intervalIntegrable _ _))
    have pos : (0 : ℝ) ≤ ((∑ i in Finset.range bs.n_basis,
        ∑ j in Finset.range bs.n_basis, x i * bs.gramEntry i j * x j : ℚ) : ℝ) := by
      rw [step1, step2, ← step3]
      exact intervalIntegral.integral_nonneg (by exact_mod_cast hab.le)
        (fun u _ => sq_nonneg _)
    exact_mod_cast pos

/-! ## Claims about the derivative transformation -/

/-- C6: for `1 ≤ r < n`, `derivative(C, order=r)` returns the `Monomial`
basis of size `n - r` over the same domain, and the coefficient rows are
the standard polynomial-derivative scaling
`C'[f][j] = (j+r)·(j+r-1)·…·(j+1) · C[f][j+r]` with degrees below 0
dropped (each row has length `n - r`). -/
theorem derivative_basis_and_coefs (bs : Monomial) (C : List (List ℚ))
    (r : ℕ) (hr1 : 1 ≤ r) (hr2 : r < bs.n_basis)
    (hC : ∀ row ∈ C, row.length = bs.n_basis) :
    (bs.derivative C r).1 = ⟨bs.a, bs.b, bs.n_basis - r⟩
    ∧ (∀ f, f < C.length →
        ((bs.derivative C r).2.getD f []).length = bs.n_basis - r)
    ∧ (∀ f j, f < C.length → j < bs.n_basis - r →
        ((bs.derivative C r).2.getD f []).getD j 0
          = (fallingCoef (j + r) r : ℚ) * (C.getD f []).getD (j + r) 0) := by
  refine ⟨rfl, ?_, ?_⟩
  · intro f hf
    show ((C.map (fun x => polyderRow x r)).getD f []).length = bs.n_basis - r
    rw [getD_map' _ hf [] [], polyderRow_length, row_length_of_mem bs C hC hf]
  · intro f j hf hj
    show ((C.map (fun x => polyderRow x r)).getD f []).getD j 0 = _
    rw [getD_map' _ hf [] [],
      polyderRow_getD _ _ (by rw [row_length_of_mem bs C hC hf]; exact hj)]

/-- Witness for C6 at `Monomial((0,5), 3)`, `C = [[1,2,3]]`, `r = 1`. -/
theorem derivative_basis_and_coefs_witness :
    (1 ≤ 1 ∧ 1 < 3 ∧ (∀ row ∈ ([[1, 2, 3]] : List (List ℚ)), row.length = 3)) ∧
      (((Monomial.mk 0 5 3).derivative [[1, 2, 3]] 1).1 = ⟨0, 5, 3 - 1⟩
        ∧ (∀ f, f < ([[1, 2, 3]] : List (List ℚ)).length →
            (((Monomial.mk 0 5 3).derivative [[1, 2, 3]] 1).2.getD f []).length = 3 - 1)
        ∧ (∀ f j, f < ([[1, 2, 3]] : List (List ℚ)).length → j < 3 - 1 →
            (((Monomial.mk 0 5 3).derivative [[1, 2, 3]] 1).2.getD f []).getD j 0
              = (fallingCoef (j + 1) 1 : ℚ)
                * (([[1, 2, 3]] : List (List ℚ)).getD f []).getD (j + 1) 0)) :=
  ⟨⟨by norm_num, by norm_num, by intro row h; rw [List.mem_singleton] at h; subst h; rfl⟩,
    derivative_basis_and_coefs ⟨0, 5, 3⟩ [[1, 2, 3]] 1 (by norm_num) (by norm_num)
      (by intro row h; rw [List.mem_singleton] at h; subst h; rfl)⟩

/-- C1: evaluating the `(Basis, CoefficientMatrix)` pair returned by
`derivative(C, order=r)` at any point of the domain (row `f`, combined
with the returned coefficients) yields the same value as evaluating the
original basis with `derivative = r` and combining with `C`. -/
theorem derivative_evaluation_consistency (bs : Monomial) (C : List (List ℚ))
    (r : ℕ) (hr1 : 1 ≤ r) (hr2 : r < bs.n_basis)
    (hC : ∀ row ∈ C, row.length = bs.n_basis)
    (f : ℕ) (hf : f < C.length) (t : ℚ) :
    (bs.derivative C r).1.combineAt ((bs.derivative C r).2.getD f []) 0 t
      = bs.combineAt (C.getD f []) r t := by
  have hrow : (C.getD f []).length = bs.n_basis := row_length_of_mem bs C hC hf
  have LHSeq : (bs.derivative C r).1.combineAt ((bs.derivative C r).2.getD f []) 0 t
      = ∑ k in Finset.range (bs.n_basis - r),
          (fallingCoef (k + r) r : ℚ) * (C.getD f []).getD (k + r) 0 * t ^ k := by
    unfold Monomial.combineAt Monomial.derivative
    refine Finset.sum_congr rfl (fun k hk => ?_)
    have hk' : k < bs.n_basis - r := Finset.mem_range.mp hk
    rw [getD_map' _ hf [] [],
      polyderRow_getD _ _ (by rw [hrow]; exact hk'),
      Monomial.evaluate_entry _ [t] 0 k 0 hk' (by norm_num),
      fallingCoef_zero_right]
    push_cast [Nat.sub_zero, List.getD_cons_zero]
    ring
  have RHSeq : bs.combineAt (C.getD f []) r t
      = ∑ k in Finset.range bs.n_basis,
          (C.getD f []).getD k 0 * ((fallingCoef k r : ℚ) * t ^ (k - r)) := by
    refine Finset.sum_congr rfl (fun k hk => ?_)
    rw [bs.evaluate_entry [t] r k 0 (Finset.mem_range.mp hk) (by norm_num)]
    rfl
  rw [LHSeq, RHSeq]
  have h1 : (∑ k in Finset.Ico 0 r,
      (C.getD f []).getD k 0 * ((fallingCoef k r : ℚ) * t ^ (k - r))) = 0 :=
    Finset.sum_eq_zero (fun k hk => by
      rw [fallingCoef_eq_zero (Finset.mem_Ico.mp hk).2]
      push_cast
      ring)
  have split : (∑ k in Finset.range bs.n_basis,
      (C.getD f []).getD k 0 * ((fallingCoef k r : ℚ) * t ^ (k - r)))
      = (∑ k in Finset.Ico 0 r,
          (C.getD f []).getD k 0 * ((fallingCoef k r : ℚ) * t ^ (k - r)))
        + ∑ k in Finset.Ico r bs.n_basis,
            (C.getD f []).getD k 0 * ((fallingCoef k r : ℚ) * t ^ (k - r)) := by
    rw [Finset.sum_Ico_consecutive _ (Nat.zero_le r) (le_of_lt hr2),
      ← Finset.range_eq_Ico]
  have reidx : (∑ k in Finset.Ico r bs.n_basis,
      (C.getD f []).getD k 0 * ((fallingCoef k r : ℚ) * t ^ (k - r)))
      = ∑ k in Finset.range (bs.n_basis - r),
          (C.getD f []).getD (r + k) 0
            * ((fallingCoef (r + k) r : ℚ) * t ^ (r + k - r)) :=
    Finset.sum_Ico_eq_sum_range _ _ _
  rw [split, h1, zero_add, reidx]
  apply Eq.symm
  refine Finset.sum_congr rfl (fun k hk => ?_)
  have e1 : r + k - r = k := by omega
  rw [e1, Nat.add_comm r k]
  ring

/-- Witness for C1 at `Monomial((0,5), 3)`, `C = [[1,2,3]]`, `r = 1`,
row 0, `t = 2`. -/
theorem derivative_evaluation_consistency_witness :
    (1 ≤ 1 ∧ 1 < 3 ∧ (∀ row ∈ ([[1, 2, 3]] : List (List ℚ)), row.length = 3)
        ∧ 0 < ([[1, 2, 3]] : List (List ℚ)).length) ∧
      ((Monomial.mk 0 5 3).derivative [[1, 2, 3]] 1).1.combineAt
          (((Monomial.mk 0 5 3).derivative [[1, 2, 3]] 1).2.getD 0 []) 0 2
        = (Monomial.mk 0 5 3).combineAt (([[1, 2, 3]] : List (List ℚ)).getD 0 []) 1 2 :=
  ⟨⟨by norm_num, by norm_num,
      by intro row h; rw [List.mem_singleton] at h; subst h; rfl, by norm_num⟩,
    derivative_evaluation_consistency ⟨0, 5, 3⟩ [[1, 2, 3]] 1 (by norm_num)
      (by norm_num)
      (by intro row h; rw [List.mem_singleton] at h; subst h; rfl)
      0 (by norm_num) 2⟩

/-- Witness for C7 at `Monomial((0,1), 2)`. -/
theorem gram_matrix_symmetric_psd_witness :
    (1 ≤ 2 ∧ (0 : ℚ) < 1) ∧
      ((∀ i j, i < 2 → j < 2 →
          (Monomial.mk 0 1 2).gramEntry i j = (Monomial.mk 0 1 2).gramEntry j i)
        ∧ (∀ x : ℕ → ℚ,
            0 ≤ ∑ i in Finset.range 2, ∑ j in Finset.range 2,
              x i * (Monomial.mk 0 1 2).gramEntry i j * x j)) :=
  ⟨⟨by norm_num, by norm_num⟩,
    gram_matrix_symmetric_psd ⟨0, 1, 2⟩ (by norm_num) (by norm_num)⟩

/-! ## Claims about the product basis -/

lemma basis_of_product_ok (b1 b2 : Monomial) (h : same_domain b1 b2) :
    b1.basis_of_product b2 = .ok ⟨b1.a, b1.b, b1.n_basis + b2.n_basis⟩ := by
  rw [Monomial.basis_of_product, if_neg (not_not_intro h)]

lemma basis_of_product_err (b1 b2 : Monomial) (h : ¬ same_domain b1 b2) :
    b1.basis_of_product b2
      = .error (.valueError "Ranges are not equal.") := by
  rw [Monomial.basis_of_product, if_pos h]

/-- C4: for two monomial bases with equal domain ranges,
`basis_of_product` returns the monomial basis over the same domain with
`n_basis = n1 + n2`, for all size pairs. -/
theorem basis_of_product_size (b1 b2 : Monomial)
    (h : b1.a = b2.a ∧ b1.b = b2.b) :
    b1.basis_of_product b2 = .ok ⟨b1.a, b1.b, b1.n_basis + b2.n_basis⟩ :=
  basis_of_product_ok b1 b2 h

/-- Witness for C4 at `Monomial((0,1), 2)` and `Monomial((0,1), 3)`. -/
theorem basis_of_product_size_witness :
    ((0 : ℚ) = 0 ∧ (1 : ℚ) = 1) ∧
      (Monomial.mk 0 1 2).basis_of_product ⟨0, 1, 3⟩ = .ok ⟨0, 1, 2 + 3⟩ :=
  ⟨⟨rfl, rfl⟩, basis_of_product_size ⟨0, 1, 2⟩ ⟨0, 1, 3⟩ ⟨rfl, rfl⟩⟩

/-- C5 counterexample: on bases whose domain ranges differ, the code
raises `ValueError` (never `IncompatibleDomainError`), so the claim that
the raised error kind matches the spec's name `IncompatibleDomainError`
is false at this concrete input. -/
theorem basis_of_product_error_kind_counterexample :
    (Monomial.mk 0 1 2).basis_of_product ⟨0, 2, 3⟩
        = Except.error (BasisError.valueError "Ranges are not equal.")
    ∧ ¬ ∃ msg, (Monomial.mk 0 1 2).basis_of_product ⟨0, 2, 3⟩
        = Except.error (BasisError.incompatibleDomainError msg) := by
  have he := basis_of_product_err ⟨0, 1, 2⟩ ⟨0, 2, 3⟩
    (fun hsd => absurd hsd.2 (by norm_num))
  refine ⟨he, ?_⟩
  rintro ⟨msg, hmsg⟩
  rw [he] at hmsg
  simp at hmsg

/-- C5 amended: for every two bases with different domain ranges,
`basis_of_product` raises `ValueError("Ranges are not equal.")` and
returns no basis. -/
theorem basis_of_product_domain_mismatch (b1 b2 : Monomial)
    (h : ¬ same_domain b1 b2) :
    b1.basis_of_product b2
        = Except.error (BasisError.valueError "Ranges are not equal.")
    ∧ ∀ m, b1.basis_of_product b2 ≠ Except.ok m := by
  refine ⟨basis_of_product_err b1 b2 h, fun m hm => ?_⟩
  rw [basis_of_product_err b1 b2 h] at hm
  simp at hm

/-- Witness for C5 (amended) at `Monomial((0,1), 2)` and
`Monomial((0,3), 2)`. -/
theorem basis_of_product_domain_mismatch_witness :
    (¬ same_domain ⟨0, 1, 2⟩ ⟨0, 3, 2⟩) ∧
      ((Monomial.mk 0 1 2).basis_of_product ⟨0, 3, 2⟩
          = Except.error (BasisError.valueError "Ranges are not equal.")
        ∧ ∀ m, (Monomial.mk 0 1 2).basis_of_product ⟨0, 3, 2⟩ ≠ Except.ok m) :=
  ⟨fun hsd => absurd hsd.2 (by norm_num),
    basis_of_product_domain_mismatch ⟨0, 1, 2⟩ ⟨0, 3, 2⟩
      (fun hsd => absurd hsd.2 (by norm_num))⟩

/-- C10 (implicit): the product composition is commutative — with equal
domain ranges both orders return the same basis, with
`n_basis = n1 + n2`. -/
theorem basis_of_product_comm (b1 b2 : Monomial)
    (h : b1.a = b2.a ∧ b1.b = b2.b) :
    b1.basis_of_product b2 = b2.basis_of_product b1
    ∧ b1.basis_of_product b2 = .ok ⟨b1.a, b1.b, b1.n_basis + b2.n_basis⟩ := by
  refine ⟨?_, basis_of_product_ok b1 b2 h⟩
  rw [basis_of_product_ok b1 b2 h, basis_of_product_ok b2 b1 ⟨h.1.symm, h.2.symm⟩,
    h.1, h.2, Nat.add_comm]

/-- Witness for C10 at `Monomial((0,1), 2)` and `Monomial((0,1), 3)`. -/
theorem basis_of_product_comm_witness :
    ((0 : ℚ) = 0 ∧ (1 : ℚ) = 1) ∧
      ((Monomial.mk 0 1 2).basis_of_product ⟨0, 1, 3⟩
          = (Monomial.mk 0 1 3).basis_of_product ⟨0, 1, 2⟩
        ∧ (Monomial.mk 0 1 2).basis_of_product ⟨0, 1, 3⟩
          = .ok ⟨0, 1, 2 + 3⟩) :=
  ⟨⟨rfl, rfl⟩, basis_of_product_comm ⟨0, 1, 2⟩ ⟨0, 1, 3⟩ ⟨rfl, rfl⟩⟩

end Skfda
